import Mathlib

/-!
Verification of the check-in ledger application (`app.py`) against its
natural-language specification.  The Python source is shallowly embedded:
the SQLite tables `checkins` and `deletions` and the backup directory
become explicit Lean state, wall-clock time becomes an explicit `Instant`
parameter, and each Python function becomes a Lean function over that
state.  JSON serialization of a row (`json.dumps(row)`) is modelled by the
row value itself, and the seconds-precision time renderings
(`isoformat(timespec="seconds")`, `strftime("%Y%m%d_%H%M%S")`) are
modelled by an injective rendering of the whole-second component of the
clock, which is exactly the information those formats preserve.
-/

namespace SafetyApp

/-- A wall-clock instant: whole seconds plus a sub-second remainder.
Seconds-precision formatting keeps `sec` and drops `subsec`. -/
structure Instant where
  sec : Nat
  subsec : Nat
deriving DecidableEq

/-- `datetime.now(TZ).isoformat(timespec="seconds")`: renders the clock at
seconds precision (injective per second, constant within a second). -/
def now_jst_iso (t : Instant) : String :=
  toString t.sec

/-- `datetime.now(TZ).strftime("%Y%m%d_%H%M%S")`: also a seconds-precision
rendering of the clock. -/
def strftimeSec (t : Instant) : String :=
  toString t.sec

/-- One row of the `checkins` table (see `CREATE TABLE checkins` in
`init_db`). -/
structure Row where
  id : Nat
  ts : String
  nick : String
  addr : String
  school : String
  tel : String
  status : String
  raw_params : List (String × String)
  sms_sent : Nat
  user_agent : String
deriving DecidableEq

/-- One row of the `deletions` audit table (see `CREATE TABLE deletions`).
`deleted_row_json` holds `json.dumps(row)`; serialization is modelled by
the row value itself. -/
structure AuditEntry where
  id : Nat
  deleted_at : String
  deleted_by : String
  reason : String
  deleted_row_json : Row
deriving DecidableEq

/-- A file in the backup directory: its name and the rows serialized into
the CSV. -/
structure BackupFile where
  fname : String
  rows : List Row
deriving DecidableEq

/-- The persistent state: the two tables with their AUTOINCREMENT
counters, and the backup directory. -/
structure DB where
  checkins : List Row
  checkins_next_id : Nat
  deletions : List AuditEntry
  deletions_next_id : Nat
  backups : List BackupFile
deriving DecidableEq

/-- Writing a CSV file (`rows_df.to_csv(path)`): a file with the same name
is overwritten, otherwise the file is created. -/
def writeBackup (bs : List BackupFile) (f : BackupFile) : List BackupFile :=
  bs.filter (fun b => b.fname != f.fname) ++ [f]

/-- Dictionary lookup `params[k]` on the query-parameter dict, returning
`none` when `k not in params`. -/
def lookupParam (params : List (String × String)) (k : String) : Option String :=
  (params.find? (fun p => p.1 == k)).map (fun p => p.2)

/-- The inner loop of `normalize_params`: the first alias present in
`params` wins (`break`), otherwise the default empty string stands. -/
def firstAlias (params : List (String × String)) : List String → String
  | [] => ""
  | k :: ks =>
    match lookupParam params k with
    | some v => v
    | none => firstAlias params ks

/-- The canonical identity record produced by `normalize_params`. -/
structure Keys where
  nick : String
  addr : String
  school : String
  tel : String
deriving DecidableEq

def aliasNick : List String := ["nick", "n"]

def aliasAddr : List String := ["addr", "a"]

def aliasSchool : List String := ["school", "s"]

def aliasTel : List String := ["tel", "p", "phone"]

/-- `normalize_params` from `app.py`: fixed alias lists per field,
first match in priority order wins, default empty string. -/
def normalize_params (params : List (String × String)) : Keys :=
  { nick := firstAlias params aliasNick
    addr := firstAlias params aliasAddr
    school := firstAlias params aliasSchool
    tel := firstAlias params aliasTel }

/-- ASCII lower-casing of a single character, as SQLite's `LIKE` applies
to the ASCII range. -/
def lowerAscii (c : Char) : Char :=
  if 'A' ≤ c && c ≤ 'Z' then Char.ofNat (c.toNat + 32) else c

/-- SQLite `LIKE` pattern matching: `%` matches any sequence, `_` any one
character, other characters match ASCII-case-insensitively. -/
def likeMatch : List Char → List Char → Bool
  | [], s => s.isEmpty
  | '%' :: ps, s => s.tails.any (fun t => likeMatch ps t)
  | '_' :: ps, s =>
    match s with
    | [] => false
    | _ :: s2 => likeMatch ps s2
  | p :: ps, s =>
    match s with
    | [] => false
    | c :: s2 => (lowerAscii p == lowerAscii c) && likeMatch ps s2

/-- The pattern `f"%{nick_filter}%"` built by `load_history`. -/
def likePattern (f : String) : List Char :=
  '%' :: (f.data ++ ['%'])

/-- `ORDER BY id DESC` as a relation on rows. -/
def rowGe (a b : Row) : Prop :=
  b.id ≤ a.id

instance : DecidableRel rowGe := fun a b => Nat.decLe b.id a.id

instance : IsTotal Row rowGe :=
  ⟨fun a b => (Nat.le_total a.id b.id).symm⟩

instance : IsTrans Row rowGe :=
  ⟨fun _ _ _ hab hbc => Nat.le_trans hbc hab⟩

/-- `ORDER BY id DESC` over the result set. -/
def sortByIdDesc (l : List Row) : List Row :=
  List.insertionSort rowGe l

/-- `load_history(limit, nick_filter)`: `WHERE nick LIKE %filter%` when
the filter is truthy, `ORDER BY id DESC`, `LIMIT` when the limit is
truthy (Python truthiness: `None` and `""`, resp. `None` and `0`, are
falsy). -/
def load_history (db : DB) (limit : Option Nat) (nick_filter : Option String) : List Row :=
  let base :=
    match nick_filter with
    | some f =>
      if f ≠ "" then db.checkins.filter (fun r => likeMatch (likePattern f) r.nick.data)
      else db.checkins
    | none => db.checkins
  let sorted := sortByIdDesc base
  match limit with
  | some n => if n ≠ 0 then sorted.take n else sorted
  | none => sorted

/-- The payload dict built by `auto_register` and consumed by
`insert_record`. -/
structure Payload where
  ts : String
  nick : String
  addr : String
  school : String
  tel : String
  status : String
  raw_params : List (String × String)
  sms_sent : Nat
  user_agent : String
deriving DecidableEq

/-- `insert_record`: one `INSERT INTO checkins`; the AUTOINCREMENT
primary key assigns the next counter value and bumps the counter. -/
def insert_record (db : DB) (p : Payload) : DB :=
  { db with
    checkins := db.checkins ++
      [{ id := db.checkins_next_id, ts := p.ts, nick := p.nick, addr := p.addr,
         school := p.school, tel := p.tel, status := p.status,
         raw_params := p.raw_params, sms_sent := p.sms_sent,
         user_agent := p.user_agent }]
    checkins_next_id := db.checkins_next_id + 1 }

def safeStatus : String := "無事"

/-- `auto_register`: builds the payload (status fixed to the safe
sentinel, `sms_sent = 0`) and inserts it. -/
def auto_register (t : Instant) (params : Keys) (raw : List (String × String))
    (ua : String) (db : DB) : DB :=
  insert_record db
    { ts := now_jst_iso t, nick := params.nick, addr := params.addr,
      school := params.school, tel := params.tel, status := safeStatus,
      raw_params := raw, sms_sent := 0, user_agent := ua }

/-- The user-mode ingestion path of `main`:
`if params["nick"]: auto_register(params, raw_params)` — Python
truthiness makes this fire exactly when the normalized nickname is
non-empty. -/
def userIngest (t : Instant) (raw : List (String × String)) (ua : String) (db : DB) : DB :=
  let params := normalize_params raw
  if params.nick ≠ "" then auto_register t params raw ua db else db

def tagManual : String := "manual_delete"

def tagFull : String := "full_delete"

def csvExt : String := ".csv"

def backupStem : String := "backup_"

def underscore : String := "_"

/-- The file name built by `backup_rows`:
`f"backup_{tag}_{ts}.csv" if tag else f"backup_{ts}.csv"` with `ts` the
seconds-precision `strftime` rendering. -/
def backupFname (t : Instant) (tag : String) : String :=
  if tag ≠ "" then backupStem ++ tag ++ underscore ++ strftimeSec t ++ csvExt
  else backupStem ++ strftimeSec t ++ csvExt

/-- `backup_rows(rows_df, tag)`: writes the CSV into the backup directory
and returns the path. -/
def backup_rows (t : Instant) (db : DB) (rows : List Row) (tag : String) : DB × String :=
  let f := backupFname t tag
  ({ db with backups := writeBackup db.backups { fname := f, rows := rows } }, f)

/-- One `INSERT INTO deletions` of `log_deletions`, for row `r`, with the
audit id assigned by AUTOINCREMENT. -/
def mkAudit (i : Nat) (t : Instant) (deleted_by reason : String) (r : Row) : AuditEntry :=
  { id := i, deleted_at := now_jst_iso t, deleted_by := deleted_by,
    reason := reason, deleted_row_json := r }

/-- `log_deletions(rows, deleted_by, reason)`: one audit insert per row,
committed as one batch at the end of the loop. -/
def log_deletions (t : Instant) (db : DB) (rows : List Row)
    (deleted_by reason : String) : DB :=
  { db with
    deletions := db.deletions ++
      rows.enum.map (fun p => mkAudit (db.deletions_next_id + p.1) t deleted_by reason p.2)
    deletions_next_id := db.deletions_next_id + rows.length }

/-- `delete_rows_by_ids(ids)`: early return 0 on an empty list, otherwise
`DELETE FROM checkins WHERE id IN (...)`; `cur.rowcount` is the number of
rows that matched. -/
def delete_rows_by_ids (db : DB) (ids : List Nat) : DB × Nat :=
  if ids.isEmpty then (db, 0)
  else
    ({ db with checkins := db.checkins.filter (fun r => !(ids.contains r.id)) },
     (db.checkins.filter (fun r => ids.contains r.id)).length)

/-- `get_rows_by_ids(ids)`: early return `[]` on an empty list, otherwise
`SELECT * FROM checkins WHERE id IN (...)`, silently omitting unknown
ids. -/
def get_rows_by_ids (db : DB) (ids : List Nat) : List Row :=
  if ids.isEmpty then []
  else db.checkins.filter (fun r => ids.contains r.id)

/-- The committed part of the manual delete flow in `main` (after the
confirmation and non-empty-selection checks): fetch the selected rows,
back them up with the manual tag, audit-log them, then delete by id.
Returns the final state, the affected count and the backup path. -/
def manualDeleteCommit (t : Instant) (db : DB) (ids : List Nat)
    (deleted_by reason : String) : DB × Nat × String :=
  let rows := get_rows_by_ids db ids
  let b := backup_rows t db rows tagManual
  let db2 := log_deletions t b.1 rows deleted_by reason
  let d := delete_rows_by_ids db2 ids
  (d.1, d.2, b.2)

/-- Outcome reported by the deletion flows. -/
inductive DeleteOutcome where
  | abortedConfirm : DeleteOutcome
  | abortedEmpty : DeleteOutcome
  | completed : Nat → String → DeleteOutcome
deriving DecidableEq

def confirmManual : String := "DELETE"

def confirmFull : String := "DELETE ALL"

/-- The manual delete flow of `main`: reject on a wrong confirmation
token, warn on an empty selection, otherwise commit. -/
def manualDeleteRequest (t : Instant) (db : DB) (confirm : String) (ids : List Nat)
    (deleted_by reason : String) : DB × DeleteOutcome :=
  if confirm ≠ confirmManual then (db, DeleteOutcome.abortedConfirm)
  else if ids.isEmpty then (db, DeleteOutcome.abortedEmpty)
  else
    let c := manualDeleteCommit t db ids deleted_by reason
    (c.1, DeleteOutcome.completed c.2.1 c.2.2)

def wipeLimit : Nat := 1000000

/-- The committed part of the full-wipe flow: back up
`load_history(limit=1000000)` with the full tag, audit-log those rows
with reason `full_delete`, then `DELETE FROM checkins` (unbounded). -/
def fullWipeCommit (t : Instant) (db : DB) (deleted_by : String) : DB × String :=
  let full := load_history db (some wipeLimit) none
  let b := backup_rows t db full tagFull
  let db2 := log_deletions t b.1 full deleted_by tagFull
  ({ db2 with checkins := [] }, b.2)

/-- The full-wipe flow of `main`: reject on a wrong confirmation token,
otherwise commit the wipe. -/
def fullWipeRequest (t : Instant) (db : DB) (confirm deleted_by : String) :
    DB × Option String :=
  if confirm ≠ confirmFull then (db, none)
  else
    let c := fullWipeCommit t db deleted_by
    (c.1, some c.2)

/-- The state after the first `k` of the three separately committed steps
of the manual delete flow (backup, audit insert, ledger delete); each
step is its own SQLite connection/commit (or file write), so each `k` is
an observable intermediate state. -/
def manualDeleteAfter (t : Instant) (db : DB) (ids : List Nat)
    (deleted_by reason : String) (k : Nat) : DB :=
  let rows := get_rows_by_ids db ids
  let db1 := (backup_rows t db rows tagManual).1
  let db2 := log_deletions t db1 rows deleted_by reason
  let db3 := (delete_rows_by_ids db2 ids).1
  if k = 0 then db else if k = 1 then db1 else if k = 2 then db2 else db3

/-- The state after the first `k` of the three separately committed steps
of the full-wipe flow. -/
def fullWipeAfter (t : Instant) (db : DB) (deleted_by : String) (k : Nat) : DB :=
  let full := load_history db (some wipeLimit) none
  let db1 := (backup_rows t db full tagFull).1
  let db2 := log_deletions t db1 full deleted_by tagFull
  let db3 := { db2 with checkins := ([] : List Row) }
  if k = 0 then db else if k = 1 then db1 else if k = 2 then db2 else db3

/-! ### Concrete instances used by witnesses and counterexamples -/

/-- The empty initial database, as `init_db` creates it. -/
def db0 : DB :=
  { checkins := [], checkins_next_id := 1, deletions := [], deletions_next_id := 1,
    backups := [] }

/-- A concrete query-parameter dict carrying a nickname. -/
def raw0 : List (String × String) := [("nick", "Aya")]

/-- A concrete query-parameter dict carrying only an address. -/
def rawNoNick : List (String × String) := [("addr", "X")]

/-- A concrete instant. -/
def t0 : Instant := { sec := 100, subsec := 0 }

def emptyStr : String := ""

def adminU : String := "admin"

def reasonDup : String := "dup"

/-- A concrete ledger row. -/
def r1 : Row :=
  { id := 1, ts := "90", nick := "Aya", addr := "X", school := "S", tel := "T",
    status := safeStatus, raw_params := raw0, sms_sent := 0, user_agent := "" }

/-- A second concrete ledger row whose nickname is upper-case ASCII. -/
def r2 : Row := { r1 with id := 2, nick := "ABC" }

/-- A one-row database. -/
def db1 : DB :=
  { checkins := [r1], checkins_next_id := 2, deletions := [], deletions_next_id := 1,
    backups := [] }

/-- A two-row database. -/
def db2 : DB := { db1 with checkins := [r1, r2], checkins_next_id := 3 }

/-- A ledger holding 1,000,001 rows, one more than the full-wipe query
cap. -/
def bigdb : DB :=
  { checkins := (List.range 1000001).map (fun n => { r1 with id := n }),
    checkins_next_id := 1000001, deletions := [], deletions_next_id := 1, backups := [] }

/-! ### Helper lemmas -/

/-- The second components of `l.enum` are the elements of `l`. -/
theorem snd_mem_of_mem_enum {α : Type} {l : List α} {p : Nat × α} (h : p ∈ l.enum) :
    p.2 ∈ l := by
  have hm : p.2 ∈ l.enum.map Prod.snd := List.mem_map_of_mem Prod.snd h
  rwa [List.enum_map_snd] at hm

/-- `log_deletions` appends exactly one audit entry per row, in order,
whose snapshot is that row. -/
theorem log_deletions_snapshots (t : Instant) (db : DB) (rows : List Row)
    (deleted_by reason : String) :
    (log_deletions t db rows deleted_by reason).deletions.map
        (fun e => e.deleted_row_json) =
      db.deletions.map (fun e => e.deleted_row_json) ++ rows := by
  simp only [log_deletions, List.map_append, List.map_map]
  have : ((fun e => e.deleted_row_json) ∘
      fun p : Nat × Row => mkAudit (db.deletions_next_id + p.1) t deleted_by reason p.2) =
      Prod.snd := by
    funext p
    rfl
  rw [this, List.enum_map_snd]

/-- Every row passed to `log_deletions` gets an audit entry whose
snapshot is that row. -/
theorem mem_log_deletions_of_mem (t : Instant) (db : DB) (rows : List Row)
    (deleted_by reason : String) {row : Row} (h : row ∈ rows) :
    ∃ e ∈ (log_deletions t db rows deleted_by reason).deletions,
      e.deleted_row_json = row := by
  have hm : row ∈ (log_deletions t db rows deleted_by reason).deletions.map
      (fun e => e.deleted_row_json) := by
    rw [log_deletions_snapshots]
    exact List.mem_append_right _ h
  rcases List.mem_map.mp hm with ⟨e, he, hej⟩
  exact ⟨e, he, hej⟩

/-- Every audit entry added by `log_deletions` snapshots one of the rows
it was given. -/
theorem new_audit_snapshot_mem (t : Instant) (db : DB) (rows : List Row)
    (deleted_by reason : String) {e : AuditEntry}
    (he : e ∈ (log_deletions t db rows deleted_by reason).deletions)
    (hnew : e ∉ db.deletions) : e.deleted_row_json ∈ rows := by
  simp only [log_deletions, List.mem_append] at he
  rcases he with hold | hnewmem
  · exact absurd hold hnew
  · rcases List.mem_map.mp hnewmem with ⟨p, hp, hpe⟩
    have : e.deleted_row_json = p.2 := by rw [← hpe]; rfl
    rw [this]
    exact snd_mem_of_mem_enum hp

/-- The file written by `backup_rows` is present in the backup directory
afterwards, holding exactly the given rows. -/
theorem backup_rows_mem (t : Instant) (db : DB) (rows : List Row) (tag : String) :
    { fname := backupFname t tag, rows := rows : BackupFile } ∈
      ((backup_rows t db rows tag).1).backups := by
  simp only [backup_rows, writeBackup]
  exact List.mem_append_right _ (List.mem_singleton.mpr rfl)

/-- With a truthy limit and no filter, `load_history` is the sorted
ledger truncated to the limit. -/
theorem load_history_limit_none (db : DB) (n : Nat) (hn : n ≠ 0) :
    load_history db (some n) none = (sortByIdDesc db.checkins).take n := by
  simp [load_history, hn]

/-- `firstAlias` picks the value of the first alias present in the
params, i.e. the head of the alias values in priority order, defaulting
to the empty string. -/
theorem firstAlias_eq_filterMap (params : List (String × String)) (ks : List String) :
    firstAlias params ks = (ks.filterMap (lookupParam params)).headD emptyStr := by
  induction ks with
  | nil => rfl
  | cons k ks ih =>
    cases h : lookupParam params k with
    | none => simp [firstAlias, h, List.filterMap_cons, ih]
    | some v => simp [firstAlias, h, List.filterMap_cons]

/-! ### Claim C6 -/

/-- C6 (counterexample): the claim says the nickname aliases include
`name` and allow arbitrary casing; `normalize_params` recognizes only the
exact, case-sensitive keys `nick` and `n`, so a `name` or `NICK`
parameter leaves the nickname empty instead of "Aya". -/
theorem c6_counterexample :
    (normalize_params [("name", "Aya")]).nick = "" ∧
    (normalize_params [("NICK", "Aya")]).nick = "" ∧
    ("" : String) ≠ "Aya" := by
  decide

/-- C6 (amended): `normalize_params` returns exactly the four identity
fields; each equals the value of the first matching alias of that field
in its fixed priority order (`nick`,`n` / `addr`,`a` / `school`,`s` /
`tel`,`p`,`phone`, matched exactly and case-sensitively), or the empty
string when no alias matches. -/
theorem c6_first_alias_normalization (params : List (String × String)) :
    (normalize_params params).nick = (aliasNick.filterMap (lookupParam params)).headD emptyStr ∧
    (normalize_params params).addr = (aliasAddr.filterMap (lookupParam params)).headD emptyStr ∧
    (normalize_params params).school =
      (aliasSchool.filterMap (lookupParam params)).headD emptyStr ∧
    (normalize_params params).tel = (aliasTel.filterMap (lookupParam params)).headD emptyStr :=
  ⟨firstAlias_eq_filterMap params aliasNick, firstAlias_eq_filterMap params aliasAddr,
   firstAlias_eq_filterMap params aliasSchool, firstAlias_eq_filterMap params aliasTel⟩

/-! ### Claim C2 -/

/-- C2: a deletion request whose confirmation token does not exactly
match the expected string for its mode ("DELETE" for id-set deletes,
"DELETE ALL" for full wipe) aborts with zero side effects: the returned
state is the input state, so ledger rows, deletions table and backup
directory are all unchanged. -/
theorem c2_confirm_mismatch_no_side_effects (t : Instant) (db : DB) (c1 c2 : String)
    (ids : List Nat) (deleted_by reason : String)
    (h1 : c1 ≠ confirmManual) (h2 : c2 ≠ confirmFull) :
    manualDeleteRequest t db c1 ids deleted_by reason =
        (db, DeleteOutcome.abortedConfirm) ∧
    fullWipeRequest t db c2 deleted_by = (db, none) := by
  constructor
  · simp [manualDeleteRequest, h1]
  · simp [fullWipeRequest, h2]

def wrongTokenLower : String := "delete"

/-- C2 (witness): a lower-case token aborts the manual delete, and the
single-row token "DELETE" aborts the full wipe, both leaving the one-row
database untouched. -/
theorem c2_witness :
    manualDeleteRequest t0 db1 wrongTokenLower [1] adminU reasonDup =
        (db1, DeleteOutcome.abortedConfirm) ∧
    fullWipeRequest t0 db1 confirmManual adminU = (db1, none) :=
  c2_confirm_mismatch_no_side_effects t0 db1 wrongTokenLower confirmManual [1] adminU
    reasonDup (by decide) (by decide)

/-! ### Claim C5 -/

/-- C5: `delete_rows_by_ids` is idempotent on absent ids — the removed
count is exactly the number of ledger rows whose id is in the given list,
an empty list returns 0, and when no given id is present the count is 0,
the ledger is unchanged, `get_rows_by_ids` returns no rows, and
`log_deletions` on that empty result appends no audit entries. -/
theorem c5_absent_ids_idempotent (t : Instant) (db : DB) (ids : List Nat)
    (deleted_by reason : String) :
    (delete_rows_by_ids db ids).2 =
        (db.checkins.filter (fun row => ids.contains row.id)).length ∧
    (delete_rows_by_ids db []).2 = 0 ∧
    ((∀ i ∈ ids, ∀ row ∈ db.checkins, row.id ≠ i) →
      (delete_rows_by_ids db ids).2 = 0 ∧
      (delete_rows_by_ids db ids).1 = db ∧
      get_rows_by_ids db ids = [] ∧
      (log_deletions t db (get_rows_by_ids db ids) deleted_by reason).deletions =
        db.deletions) := by
  refine ⟨?_, rfl, fun h => ?_⟩
  · cases ids with
    | nil => simp [delete_rows_by_ids]
    | cons a as => simp [delete_rows_by_ids]
  · have hnotmem : ∀ row ∈ db.checkins, row.id ∉ ids := by
      intro row hrow hmem
      exact h row.id hmem row hrow rfl
    have hfilter : db.checkins.filter (fun row => ids.contains row.id) = [] :=
      List.filter_eq_nil_iff.mpr (fun row hrow => by simpa using hnotmem row hrow)
    have hkeep : db.checkins.filter (fun row => !(ids.contains row.id)) = db.checkins :=
      List.filter_eq_self.mpr (fun row hrow => by simpa using hnotmem row hrow)
    have hget : get_rows_by_ids db ids = [] := by
      cases ids with
      | nil => rfl
      | cons a as => simpa [get_rows_by_ids] using hfilter
    refine ⟨?_, ?_, hget, ?_⟩
    · cases ids with
      | nil => rfl
      | cons a as => simpa [delete_rows_by_ids] using congrArg List.length hfilter
    · cases ids with
      | nil => rfl
      | cons a as =>
        show { db with
          checkins := db.checkins.filter (fun r => !((a :: as).contains r.id)) } = db
        rw [hkeep]
    · rw [hget]
      simp [log_deletions]

/-- C5 (witness): deleting the absent id 2 from the one-row database
returns 0, changes nothing, fetches no rows and logs no audits. -/
theorem c5_witness :
    (delete_rows_by_ids db1 [2]).2 = 0 ∧ (delete_rows_by_ids db1 [2]).1 = db1 ∧
    get_rows_by_ids db1 [2] = [] ∧
    (log_deletions t0 db1 (get_rows_by_ids db1 [2]) adminU reasonDup).deletions =
      db1.deletions :=
  (c5_absent_ids_idempotent t0 db1 [2] adminU reasonDup).2.2 (by decide)

/-! ### Claim C10 -/

/-- C10: the user-mode ingestion path inserts a ledger row exactly when
the normalized nickname is non-empty; an empty nickname leaves the state
untouched, and a non-empty nickname appends one row carrying the
normalized fields with status set to the safe sentinel. -/
theorem c10_ingest_iff_nick (t : Instant) (raw : List (String × String)) (ua : String)
    (db : DB) :
    ((normalize_params raw).nick = "" → userIngest t raw ua db = db) ∧
    ((normalize_params raw).nick ≠ "" →
      (userIngest t raw ua db).checkins =
        db.checkins ++
          [{ id := db.checkins_next_id, ts := now_jst_iso t,
             nick := (normalize_params raw).nick, addr := (normalize_params raw).addr,
             school := (normalize_params raw).school, tel := (normalize_params raw).tel,
             status := safeStatus, raw_params := raw, sms_sent := 0,
             user_agent := ua }]) := by
  constructor
  · intro h
    simp [userIngest, h]
  · intro h
    simp [userIngest, h, auto_register, insert_record]

/-- C10 (witness): a dict with only an address inserts nothing; a dict
with a nickname inserts exactly one row. -/
theorem c10_witness :
    userIngest t0 rawNoNick emptyStr db0 = db0 ∧
    (userIngest t0 raw0 emptyStr db0).checkins.length = 1 := by
  constructor
  · exact (c10_ingest_iff_nick t0 rawNoNick emptyStr db0).1 (by decide)
  · rw [(c10_ingest_iff_nick t0 raw0 emptyStr db0).2 (by decide)]
    decide

/-! ### Claim C4 -/

/-- C4 (counterexample): two ingestion calls in the same session with the
identical dict and the identical instant (hence the same minute) produce
two ledger rows, not one — the second call is a second insert, not a
suppressed no-op. -/
theorem c4_counterexample :
    (userIngest t0 raw0 emptyStr db0).checkins.length = 1 ∧
    (userIngest t0 raw0 emptyStr (userIngest t0 raw0 emptyStr db0)).checkins.length = 2 ∧
    userIngest t0 raw0 emptyStr (userIngest t0 raw0 emptyStr db0) ≠
      userIngest t0 raw0 emptyStr db0 := by
  decide

/-- C4 (amended): the ingestion path has no deduplication seen-set: every
call with a non-empty normalized nickname inserts, so two calls with
identical parameters — whatever their times, in particular within the
same minute — produce exactly two new ledger rows, and the second call is
not a no-op. -/
theorem c4_no_dedup_two_inserts (t1 t2 : Instant) (raw : List (String × String))
    (ua : String) (db : DB) (h : (normalize_params raw).nick ≠ "") :
    (userIngest t2 raw ua (userIngest t1 raw ua db)).checkins.length =
        db.checkins.length + 2 ∧
    userIngest t2 raw ua (userIngest t1 raw ua db) ≠ userIngest t1 raw ua db := by
  have len1 : (userIngest t1 raw ua db).checkins.length = db.checkins.length + 1 := by
    simp [userIngest, h, auto_register, insert_record]
  have len2 : (userIngest t2 raw ua (userIngest t1 raw ua db)).checkins.length =
      (userIngest t1 raw ua db).checkins.length + 1 := by
    simp [userIngest, h, auto_register, insert_record]
  refine ⟨by omega, fun he => ?_⟩
  have hlen := congrArg (fun d => d.checkins.length) he
  simp only at hlen
  omega

/-- C4 (witness): the amended statement at the concrete dict, instant and
empty database of the counterexample. -/
theorem c4_witness :
    (userIngest t0 raw0 emptyStr (userIngest t0 raw0 emptyStr db0)).checkins.length =
      db0.checkins.length + 2 :=
  (c4_no_dedup_two_inserts t0 t0 raw0 emptyStr db0 (by decide)).1

/-- `delete_rows_by_ids` touches only the `checkins` table: it filters
out the rows whose id is in the given list and leaves the audit table and
the backup directory alone. -/
theorem delete_rows_by_ids_state (db : DB) (ids : List Nat) :
    (delete_rows_by_ids db ids).1.deletions = db.deletions ∧
    (delete_rows_by_ids db ids).1.backups = db.backups ∧
    (delete_rows_by_ids db ids).1.checkins =
      db.checkins.filter (fun r => !(ids.contains r.id)) := by
  cases ids with
  | nil =>
    refine ⟨rfl, rfl, ?_⟩
    show db.checkins = _
    simp
  | cons a as => exact ⟨rfl, rfl, rfl⟩

/-! ### Claim C3 -/

/-- C3: after a successful id-set deletion, `get_rows_by_ids` returns no
row for the selected ids, and the deletions table has grown by exactly
one entry per selected row, in order, each snapshotting that row's
pre-deletion field values. -/
theorem c3_delete_by_ids_postcondition (t : Instant) (db : DB) (ids : List Nat)
    (deleted_by reason : String) :
    get_rows_by_ids ((manualDeleteCommit t db ids deleted_by reason).1) ids = [] ∧
    ((manualDeleteCommit t db ids deleted_by reason).1).deletions.map
        (fun e => e.deleted_row_json) =
      db.deletions.map (fun e => e.deleted_row_json) ++ get_rows_by_ids db ids ∧
    ((manualDeleteCommit t db ids deleted_by reason).1).deletions.length =
      db.deletions.length + (get_rows_by_ids db ids).length := by
  have hdel := delete_rows_by_ids_state
    (log_deletions t (backup_rows t db (get_rows_by_ids db ids) tagManual).1
      (get_rows_by_ids db ids) deleted_by reason) ids
  have hsnap : ((manualDeleteCommit t db ids deleted_by reason).1).deletions.map
      (fun e => e.deleted_row_json) =
      db.deletions.map (fun e => e.deleted_row_json) ++ get_rows_by_ids db ids := by
    show ((delete_rows_by_ids _ ids).1).deletions.map (fun e => e.deleted_row_json) = _
    rw [hdel.1]
    exact log_deletions_snapshots t (backup_rows t db (get_rows_by_ids db ids) tagManual).1
      (get_rows_by_ids db ids) deleted_by reason
  refine ⟨?_, hsnap, ?_⟩
  · cases ids with
    | nil => rfl
    | cons a as =>
      show ((delete_rows_by_ids _ (a :: as)).1).checkins.filter
          (fun r => (a :: as).contains r.id) = []
      rw [hdel.2.2]
      rw [List.filter_filter]
      simp only [List.filter_eq_nil_iff]
      intro x hx
      rw [Bool.and_not_self]
      exact Bool.false_ne_true
  · have := congrArg List.length hsnap
    simpa using this

/-- `load_history` is always a sorted base result set, truncated by the
limit when the limit is truthy. -/
theorem load_history_eq (db : DB) (limit : Option Nat) (nf : Option String) :
    ∃ base : List Row,
      load_history db limit nf = sortByIdDesc base ∨
      ∃ n, limit = some n ∧ load_history db limit nf = (sortByIdDesc base).take n := by
  cases nf with
  | none =>
    cases limit with
    | none => exact ⟨db.checkins, Or.inl rfl⟩
    | some n =>
      by_cases hn : n ≠ 0
      · exact ⟨db.checkins, Or.inr ⟨n, rfl, by simp [load_history, hn]⟩⟩
      · exact ⟨db.checkins, Or.inl (by simp [load_history, hn])⟩
  | some f =>
    by_cases hf : f ≠ ""
    · cases limit with
      | none =>
        exact ⟨db.checkins.filter (fun r => likeMatch (likePattern f) r.nick.data),
          Or.inl (by simp [load_history, hf])⟩
      | some n =>
        by_cases hn : n ≠ 0
        · exact ⟨db.checkins.filter (fun r => likeMatch (likePattern f) r.nick.data),
            Or.inr ⟨n, rfl, by simp [load_history, hf, hn]⟩⟩
        · exact ⟨db.checkins.filter (fun r => likeMatch (likePattern f) r.nick.data),
            Or.inl (by simp [load_history, hf, hn])⟩
    · cases limit with
      | none => exact ⟨db.checkins, Or.inl (by simp [load_history, hf])⟩
      | some n =>
        by_cases hn : n ≠ 0
        · exact ⟨db.checkins, Or.inr ⟨n, rfl, by simp [load_history, hf, hn]⟩⟩
        · exact ⟨db.checkins, Or.inl (by simp [load_history, hf, hn])⟩

/-! ### Claim C7 -/

/-- Plain (case-sensitive) substring containment, the reading of
"contains the filter as a substring" in the claim. -/
def substrB (needle hay : String) : Bool :=
  hay.data.tails.any (fun tl => needle.data.isPrefixOf tl)

def filtAbc : String := "abc"

/-- C7 (counterexample): with the filter "abc" on a ledger whose row has
nickname "ABC", `load_history` returns that row even though "abc" is not
a substring of "ABC" — SQL `LIKE` matches ASCII letters
case-insensitively, so the result is not "exactly the rows whose nickname
contains the filter as a substring". -/
theorem c7_counterexample :
    load_history db2 none (some filtAbc) = [r2] ∧
    substrB filtAbc r2.nick = false := by
  decide

/-- C7 (amended): `load_history` results are ordered by id descending;
a truthy (non-empty) nickname filter keeps exactly the rows whose
nickname matches the SQL LIKE pattern `%filter%` (ASCII-case-insensitive,
`%`/`_` in the filter acting as wildcards); a truthy (non-zero) limit
caps the result count; and with no limit and no filter the complete data
set is returned in that order. -/
theorem c7_load_history_query (db : DB) (limit : Option Nat) (nf : Option String) :
    List.Sorted rowGe (load_history db limit nf) ∧
    (∀ f : String, f ≠ "" →
      (load_history db none (some f)).Perm
        (db.checkins.filter (fun row => likeMatch (likePattern f) row.nick.data))) ∧
    (∀ n : Nat, n ≠ 0 → (load_history db (some n) nf).length ≤ n) ∧
    (load_history db none none).Perm db.checkins := by
  have hs : ∀ l : List Row, List.Sorted rowGe (sortByIdDesc l) := fun l =>
    List.sorted_insertionSort rowGe l
  refine ⟨?_, ?_, ?_, ?_⟩
  · rcases load_history_eq db limit nf with ⟨base, h | ⟨n, _, h⟩⟩
    · rw [h]
      exact hs base
    · rw [h]
      exact List.Pairwise.sublist (List.take_sublist n _) (hs base)
  · intro f hf
    simp only [load_history, if_pos hf]
    exact List.perm_insertionSort rowGe _
  · intro n hn
    simp only [load_history, if_pos hn]
    exact List.length_take_le n _
  · exact List.perm_insertionSort rowGe _

/-- C7 (witness): the amended statement at the two-row database, with the
concrete filter "abc" and the concrete limit 1. -/
theorem c7_witness :
    (load_history db2 none (some filtAbc)).Perm
        (db2.checkins.filter (fun row => likeMatch (likePattern filtAbc) row.nick.data)) ∧
    (load_history db2 (some 1) none).length ≤ 1 :=
  ⟨(c7_load_history_query db2 none (some filtAbc)).2.1 filtAbc (by decide),
   (c7_load_history_query db2 (some 1) none).2.2.1 1 (by decide)⟩

/-! ### Claim C8 -/

/-- C8: `backup_rows` names its export from the tag and a seconds-
precision timestamp only, so two calls in the same process run during the
same wall-clock second with the same tag produce the *same* file name —
the claim (and the spec's no-collision requirement) is violated and the
second write overwrites the first backup: after both calls the backup
directory holds a single file containing only the second row set. -/
theorem c8_backup_name_collision :
    (⟨100, 1⟩ : Instant) ≠ (⟨100, 7⟩ : Instant) ∧
    backupFname ⟨100, 1⟩ tagManual = backupFname ⟨100, 7⟩ tagManual ∧
    ((backup_rows ⟨100, 7⟩ ((backup_rows ⟨100, 1⟩ db0 [r1] tagManual).1) [r2]
        tagManual).1).backups =
      [{ fname := backupFname ⟨100, 7⟩ tagManual, rows := [r2] }] ∧
    ([r1] : List Row) ≠ [r2] := by
  decide

/-! ### Claim C9 -/

/-- C9: the full-wipe path snapshots and audits only
`load_history(limit=1000000)` — at most 1,000,000 rows, exactly the first
`min 1000000 n` rows of the id-descending ordering — while deleting every
ledger row; backup and audit therefore cover all deleted rows whenever
the ledger holds at most 1,000,000 rows, and with more rows the audit
entries added number strictly fewer than the rows removed.  The no-filter
CSV export uses the same capped query. -/
theorem c9_full_wipe_cap (t : Instant) (db : DB) (deleted_by : String) :
    (load_history db (some wipeLimit) none).length = min wipeLimit db.checkins.length ∧
    ((fullWipeCommit t db deleted_by).1).checkins = [] ∧
    ((fullWipeCommit t db deleted_by).1).deletions.length =
        db.deletions.length + min wipeLimit db.checkins.length ∧
    ((fullWipeCommit t db deleted_by).1).deletions.map (fun e => e.deleted_row_json) =
        db.deletions.map (fun e => e.deleted_row_json) ++
          (sortByIdDesc db.checkins).take wipeLimit ∧
    (db.checkins.length ≤ wipeLimit →
      ∀ row ∈ db.checkins, ∃ e ∈ ((fullWipeCommit t db deleted_by).1).deletions,
        e.deleted_row_json = row) ∧
    (wipeLimit < db.checkins.length →
      ((fullWipeCommit t db deleted_by).1).deletions.length <
        db.deletions.length + db.checkins.length) := by
  have hsortlen : (sortByIdDesc db.checkins).length = db.checkins.length :=
    (List.perm_insertionSort rowGe db.checkins).length_eq
  have hfull : load_history db (some wipeLimit) none =
      (sortByIdDesc db.checkins).take wipeLimit :=
    load_history_limit_none db wipeLimit (by decide)
  have hlen : (load_history db (some wipeLimit) none).length =
      min wipeLimit db.checkins.length := by
    rw [hfull, List.length_take, hsortlen]
  have h4 : ((fullWipeCommit t db deleted_by).1).deletions.map
      (fun e => e.deleted_row_json) =
      db.deletions.map (fun e => e.deleted_row_json) ++
        load_history db (some wipeLimit) none :=
    log_deletions_snapshots t
      (backup_rows t db (load_history db (some wipeLimit) none) tagFull).1
      (load_history db (some wipeLimit) none) deleted_by tagFull
  have h3 : ((fullWipeCommit t db deleted_by).1).deletions.length =
      db.deletions.length + min wipeLimit db.checkins.length := by
    have := congrArg List.length h4
    simpa [hlen] using this
  refine ⟨hlen, rfl, h3, ?_, ?_, ?_⟩
  · rw [h4, hfull]
  · intro hle row hrow
    have hmemsort : row ∈ sortByIdDesc db.checkins :=
      (List.mem_insertionSort rowGe).mpr hrow
    have htake : (sortByIdDesc db.checkins).take wipeLimit = sortByIdDesc db.checkins :=
      List.take_of_length_le (by rw [hsortlen]; exact hle)
    have hmemfull : row ∈ load_history db (some wipeLimit) none := by
      rw [hfull, htake]
      exact hmemsort
    exact mem_log_deletions_of_mem t
      (backup_rows t db (load_history db (some wipeLimit) none) tagFull).1
      (load_history db (some wipeLimit) none) deleted_by tagFull hmemfull
  · intro hlt
    rw [h3, Nat.min_eq_left (Nat.le_of_lt hlt)]
    omega

/-- C9 (witness): on the one-row database the cap is not hit and the
wiped row's snapshot is among the audit entries. -/
theorem c9_witness :
    db1.checkins.length ≤ wipeLimit ∧
    ∃ e ∈ ((fullWipeCommit t0 db1 adminU).1).deletions, e.deleted_row_json = r1 :=
  ⟨by decide, (c9_full_wipe_cap t0 db1 adminU).2.2.2.2.1 (by decide) r1 (by decide)⟩

/-! ### Claim C1 -/

theorem manualDeleteAfter_zero (t : Instant) (db : DB) (ids : List Nat)
    (deleted_by reason : String) : manualDeleteAfter t db ids deleted_by reason 0 = db :=
  rfl

theorem manualDeleteAfter_one (t : Instant) (db : DB) (ids : List Nat)
    (deleted_by reason : String) :
    manualDeleteAfter t db ids deleted_by reason 1 =
      (backup_rows t db (get_rows_by_ids db ids) tagManual).1 :=
  rfl

theorem manualDeleteAfter_two (t : Instant) (db : DB) (ids : List Nat)
    (deleted_by reason : String) :
    manualDeleteAfter t db ids deleted_by reason 2 =
      log_deletions t (backup_rows t db (get_rows_by_ids db ids) tagManual).1
        (get_rows_by_ids db ids) deleted_by reason :=
  rfl

theorem manualDeleteAfter_succ3 (t : Instant) (db : DB) (ids : List Nat)
    (deleted_by reason : String) (k : Nat) :
    manualDeleteAfter t db ids deleted_by reason (k + 3) =
      (delete_rows_by_ids
        (log_deletions t (backup_rows t db (get_rows_by_ids db ids) tagManual).1
          (get_rows_by_ids db ids) deleted_by reason) ids).1 :=
  rfl

theorem fullWipeAfter_zero (t : Instant) (db : DB) (deleted_by : String) :
    fullWipeAfter t db deleted_by 0 = db :=
  rfl

theorem fullWipeAfter_one (t : Instant) (db : DB) (deleted_by : String) :
    fullWipeAfter t db deleted_by 1 =
      (backup_rows t db (load_history db (some wipeLimit) none) tagFull).1 :=
  rfl

theorem fullWipeAfter_two (t : Instant) (db : DB) (deleted_by : String) :
    fullWipeAfter t db deleted_by 2 =
      log_deletions t (backup_rows t db (load_history db (some wipeLimit) none) tagFull).1
        (load_history db (some wipeLimit) none) deleted_by tagFull :=
  rfl

theorem fullWipeAfter_succ3 (t : Instant) (db : DB) (deleted_by : String) (k : Nat) :
    fullWipeAfter t db deleted_by (k + 3) =
      { log_deletions t
          (backup_rows t db (load_history db (some wipeLimit) none) tagFull).1
          (load_history db (some wipeLimit) none) deleted_by tagFull with
        checkins := ([] : List Row) } :=
  rfl

/-- C1 (counterexample): the three deletion steps commit separately, so
the state after the audit step (step 2) of a manual delete of row 1
differs from both the initial state and the final state — a partial
outcome is observably committed, refuting "all take effect or none is
observably committed".  Moreover, a full wipe of a 1,000,001-row ledger
removes every row but appends only 1,000,000 audit entries, so some
removed row has no audit entry, refuting "exactly one audit entry for
every row removed". -/
theorem c1_counterexample :
    manualDeleteAfter t0 db1 [1] adminU reasonDup 2 ≠
        manualDeleteAfter t0 db1 [1] adminU reasonDup 0 ∧
    manualDeleteAfter t0 db1 [1] adminU reasonDup 2 ≠
        manualDeleteAfter t0 db1 [1] adminU reasonDup 3 ∧
    bigdb.checkins.length = 1000001 ∧
    (fullWipeAfter t0 bigdb adminU 3).checkins.length = 0 ∧
    (fullWipeAfter t0 bigdb adminU 3).deletions.length = 1000000 := by
  refine ⟨by decide, by decide, ?_, rfl, ?_⟩
  · simp [bigdb]
  · have hbiglen : bigdb.checkins.length = 1000001 := by simp [bigdb]
    have hs2 : (sortByIdDesc bigdb.checkins).length = bigdb.checkins.length :=
      (List.perm_insertionSort rowGe bigdb.checkins).length_eq
    have hlen1 : (load_history bigdb (some wipeLimit) none).length = 1000000 := by
      rw [load_history_limit_none bigdb wipeLimit (by decide), List.length_take, hs2,
        hbiglen]
      decide
    have h4 : (fullWipeAfter t0 bigdb adminU 3).deletions.map
        (fun e => e.deleted_row_json) =
        bigdb.deletions.map (fun e => e.deleted_row_json) ++
          load_history bigdb (some wipeLimit) none :=
      log_deletions_snapshots t0
        (backup_rows t0 bigdb (load_history bigdb (some wipeLimit) none) tagFull).1
        (load_history bigdb (some wipeLimit) none) adminU tagFull
    have hbigdel : bigdb.deletions = [] := rfl
    rw [hbigdel, List.map_nil, List.nil_append] at h4
    have hlen := congrArg List.length h4
    rw [List.length_map] at hlen
    rw [hlen1] at hlen
    exact hlen

/-- C1 (amended): in both deletion flows the steps run in the fixed order
backup → audit insert → ledger delete, each committing separately.  After
the full manual run every removed row has exactly one audit entry, in
order, whose snapshot is its pre-deletion value; after any prefix of the
steps no deleted row lacks an audit entry and no newly added audit entry
lacks a backup file containing its snapshot; the full wipe empties the
ledger and its audit entries cover every removed row provided the ledger
held at most 1,000,000 rows — but the steps are not atomic: an
intermediate state (e.g. audit committed, delete not) is observable, as
the counterexample shows. -/
theorem c1_ordered_deletion_invariants (t : Instant) (db : DB) (ids : List Nat)
    (deleted_by reason : String) :
    (manualDeleteAfter t db ids deleted_by reason 3).checkins =
        db.checkins.filter (fun r => !(ids.contains r.id)) ∧
    (manualDeleteAfter t db ids deleted_by reason 3).deletions.map
        (fun e => e.deleted_row_json) =
      db.deletions.map (fun e => e.deleted_row_json) ++ get_rows_by_ids db ids ∧
    (∀ k, ∀ row ∈ db.checkins,
      row ∉ (manualDeleteAfter t db ids deleted_by reason k).checkins →
      ∃ e ∈ (manualDeleteAfter t db ids deleted_by reason k).deletions,
        e.deleted_row_json = row) ∧
    (∀ k, ∀ e ∈ (manualDeleteAfter t db ids deleted_by reason k).deletions,
      e ∉ db.deletions →
      ∃ bf ∈ (manualDeleteAfter t db ids deleted_by reason k).backups,
        e.deleted_row_json ∈ bf.rows) ∧
    (fullWipeAfter t db deleted_by 3).checkins = [] ∧
    (db.checkins.length ≤ wipeLimit →
      ∀ row ∈ db.checkins, ∃ e ∈ (fullWipeAfter t db deleted_by 3).deletions,
        e.deleted_row_json = row) ∧
    (∀ k, ∀ e ∈ (fullWipeAfter t db deleted_by k).deletions, e ∉ db.deletions →
      ∃ bf ∈ (fullWipeAfter t db deleted_by k).backups, e.deleted_row_json ∈ bf.rows) := by
  have hstate := delete_rows_by_ids_state
    (log_deletions t (backup_rows t db (get_rows_by_ids db ids) tagManual).1
      (get_rows_by_ids db ids) deleted_by reason) ids
  have hrows_of_cont : ∀ row ∈ db.checkins, ids.contains row.id = true →
      row ∈ get_rows_by_ids db ids := by
    intro row hrow hcont
    cases ids with
    | nil => simp at hcont
    | cons a as => exact List.mem_filter.mpr ⟨hrow, hcont⟩
  refine ⟨?_, ?_, ?_, ?_, rfl, ?_, ?_⟩
  · rw [manualDeleteAfter_succ3 t db ids deleted_by reason 0, hstate.2.2]
    rfl
  · rw [manualDeleteAfter_succ3 t db ids deleted_by reason 0, hstate.1]
    exact log_deletions_snapshots t
      (backup_rows t db (get_rows_by_ids db ids) tagManual).1
      (get_rows_by_ids db ids) deleted_by reason
  · intro k row hrow hnot
    match k with
    | 0 => exact absurd hrow hnot
    | 1 => exact absurd hrow hnot
    | 2 => exact absurd hrow hnot
    | n + 3 =>
      rw [manualDeleteAfter_succ3 t db ids deleted_by reason n] at hnot ⊢
      rw [hstate.2.2] at hnot
      have hcont : ids.contains row.id = true := by
        by_contra hc
        have hfalse : ids.contains row.id = false := Bool.eq_false_iff.mpr hc
        exact hnot (List.mem_filter.mpr ⟨hrow, by rw [hfalse]; rfl⟩)
      rw [hstate.1]
      exact mem_log_deletions_of_mem t
        (backup_rows t db (get_rows_by_ids db ids) tagManual).1
        (get_rows_by_ids db ids) deleted_by reason (hrows_of_cont row hrow hcont)
  · intro k e he hnew
    match k with
    | 0 => exact absurd he hnew
    | 1 => exact absurd he hnew
    | 2 =>
      rw [manualDeleteAfter_two t db ids deleted_by reason] at he ⊢
      exact ⟨⟨backupFname t tagManual, get_rows_by_ids db ids⟩,
        backup_rows_mem t db (get_rows_by_ids db ids) tagManual,
        new_audit_snapshot_mem t (backup_rows t db (get_rows_by_ids db ids) tagManual).1
          (get_rows_by_ids db ids) deleted_by reason he hnew⟩
    | n + 3 =>
      rw [manualDeleteAfter_succ3 t db ids deleted_by reason n] at he ⊢
      rw [hstate.1] at he
      rw [hstate.2.1]
      exact ⟨⟨backupFname t tagManual, get_rows_by_ids db ids⟩,
        backup_rows_mem t db (get_rows_by_ids db ids) tagManual,
        new_audit_snapshot_mem t (backup_rows t db (get_rows_by_ids db ids) tagManual).1
          (get_rows_by_ids db ids) deleted_by reason he hnew⟩
  · intro hle row hrow
    have hsortlen : (sortByIdDesc db.checkins).length = db.checkins.length :=
      (List.perm_insertionSort rowGe db.checkins).length_eq
    have htake : (sortByIdDesc db.checkins).take wipeLimit = sortByIdDesc db.checkins :=
      List.take_of_length_le (by rw [hsortlen]; exact hle)
    have hmemfull : row ∈ load_history db (some wipeLimit) none := by
      rw [load_history_limit_none db wipeLimit (by decide), htake]
      exact (List.mem_insertionSort rowGe).mpr hrow
    exact mem_log_deletions_of_mem t
      (backup_rows t db (load_history db (some wipeLimit) none) tagFull).1
      (load_history db (some wipeLimit) none) deleted_by tagFull hmemfull
  · intro k e he hnew
    match k with
    | 0 => exact absurd he hnew
    | 1 => exact absurd he hnew
    | 2 =>
      rw [fullWipeAfter_two t db deleted_by] at he ⊢
      exact ⟨⟨backupFname t tagFull, load_history db (some wipeLimit) none⟩,
        backup_rows_mem t db (load_history db (some wipeLimit) none) tagFull,
        new_audit_snapshot_mem t
          (backup_rows t db (load_history db (some wipeLimit) none) tagFull).1
          (load_history db (some wipeLimit) none) deleted_by tagFull he hnew⟩
    | n + 3 =>
      rw [fullWipeAfter_succ3 t db deleted_by n] at he ⊢
      exact ⟨⟨backupFname t tagFull, load_history db (some wipeLimit) none⟩,
        backup_rows_mem t db (load_history db (some wipeLimit) none) tagFull,
        new_audit_snapshot_mem t
          (backup_rows t db (load_history db (some wipeLimit) none) tagFull).1
          (load_history db (some wipeLimit) none) deleted_by tagFull he hnew⟩

/-- C1 (witness): after the full manual run on the one-row database, the
removed row's snapshot is among the audit entries. -/
theorem c1_witness :
    ∃ e ∈ (manualDeleteAfter t0 db1 [1] adminU reasonDup 3).deletions,
      e.deleted_row_json = r1 :=
  (c1_ordered_deletion_invariants t0 db1 [1] adminU reasonDup).2.2.1 3 r1 (by decide)
    (by decide)

end SafetyApp
